import Mathlib

/-!
Verification of the arithmetization core in `src/constraints/field.rs`.

The scalar/compound value model (`ConstOrCell`, `Var`), the circuit state
(`CircuitWriter` holding a fresh-cell counter and the emitted constraints),
and the operations `neg`, `add`, `sub`, `mul`, `equal_cells`, `equal`,
`not_equal`, `is_zero_cell`, `if_else_inner`, `if_else` are translated from
the Rust source.  The backend operations (the `Backend` trait) and the
boolean module (`boolean::and` / `boolean::not`) are not part of the given
sources and are modelled from the specification's interface tables.

A witness is an assignment of field values to cells; `satisfies` states that
every emitted constraint holds under the witness, and `evalVar` evaluates a
compound value under a witness.  Rust `assert_eq!` aborts are modelled by
`Option`: the length-checking entry points return `none` exactly when the
corresponding assertion would panic.
-/

set_option linter.unusedSectionVars false

namespace Noname

instance : Fact (Nat.Prime 7) := ⟨by norm_num⟩

/-- A scalar value: either a compile-time constant or an opaque backend cell,
referenced by index (translated from `var::ConstOrCell`). -/
inductive ConstOrCell (F : Type) where
  | Const (c : F)
  | Cell (idx : Nat)
deriving DecidableEq

/-- `true` exactly on the `Cell` variant. -/
def ConstOrCell.isCell {F : Type} : ConstOrCell F → Bool
  | .Const _ => false
  | .Cell _ => true

/-- A compound value: an ordered sequence of scalars plus a provenance span
(translated from `var::Var`; the span is kept as a bare number). -/
structure Var (F : Type) where
  cvars : List (ConstOrCell F)
  span : Nat
deriving DecidableEq

def Var.new_constant {F : Type} (c : F) (sp : Nat) : Var F := ⟨[ConstOrCell.Const c], sp⟩

def Var.new_var {F : Type} (i : Nat) (sp : Nat) : Var F := ⟨[ConstOrCell.Cell i], sp⟩

def Var.new_cvar {F : Type} (c : ConstOrCell F) (sp : Nat) : Var F := ⟨[c], sp⟩

def Var.new {F : Type} (cs : List (ConstOrCell F)) (sp : Nat) : Var F := ⟨cs, sp⟩

/-- `var[0]` of the Rust source (every scalar-valued `Var` is a singleton). -/
def Var.get0 {F : Type} [Field F] (v : Var F) : ConstOrCell F :=
  v.cvars.headD (ConstOrCell.Const 0)

/-- Deferred witness expression attached to an internal cell
(translated from `var::Value`): either the multiplicative inverse of a cell
or a linear combination of cells plus a constant. -/
inductive Value (F : Type) where
  | Inverse (cell : Nat)
  | LinearCombination (terms : List (F × Nat)) (cst : F)
deriving DecidableEq

/-- One emitted constraint.  The `def…` constructors record that a fresh cell
was defined to equal an arithmetic combination of others (the backend
contract's gate semantics); `defConstant` is `add_constant` (a cell fixed to
a known value); `internalVar` records a deferred witness expression and
constrains nothing; `assertEqVar` / `assertEqConst` are the explicit
equality assertions. -/
inductive Gate (F : Type) where
  | defNeg (res a : Nat)
  | defAdd (res a b : Nat)
  | defAddConst (res a : Nat) (c : F)
  | defMul (res a b : Nat)
  | defMulConst (res a : Nat) (c : F)
  | defSub (res a b : Nat)
  | defConstant (res : Nat) (c : F)
  | internalVar (res : Nat) (v : Value F)
  | assertEqVar (a b : Nat)
  | assertEqConst (a : Nat) (c : F)
deriving DecidableEq

/-- The growing constraint system: a fresh-cell counter and the constraints
emitted so far (most recent first). -/
structure CircuitWriter (F : Type) where
  nextVar : Nat
  gates : List (Gate F)
deriving DecidableEq

namespace Backend

variable {F : Type} [Field F]

/-- Modelled from the spec: backend `neg(cell)` returns a fresh cell
representing the negated value. -/
def neg (st : CircuitWriter F) (a : Nat) (_sp : Nat) : Nat × CircuitWriter F :=
  (st.nextVar, ⟨st.nextVar + 1, Gate.defNeg st.nextVar a :: st.gates⟩)

/-- Modelled from the spec: backend `add(cellA, cellB)` returns a fresh cell
representing the sum. -/
def add (st : CircuitWriter F) (a b : Nat) (_sp : Nat) : Nat × CircuitWriter F :=
  (st.nextVar, ⟨st.nextVar + 1, Gate.defAdd st.nextVar a b :: st.gates⟩)

/-- Modelled from the spec: backend `add_const(cell, constant)` returns a
fresh cell representing cell + constant. -/
def add_const (st : CircuitWriter F) (a : Nat) (c : F) (_sp : Nat) : Nat × CircuitWriter F :=
  (st.nextVar, ⟨st.nextVar + 1, Gate.defAddConst st.nextVar a c :: st.gates⟩)

/-- Modelled from the spec: backend `mul(cellA, cellB)` returns a fresh cell
representing the product. -/
def mul (st : CircuitWriter F) (a b : Nat) (_sp : Nat) : Nat × CircuitWriter F :=
  (st.nextVar, ⟨st.nextVar + 1, Gate.defMul st.nextVar a b :: st.gates⟩)

/-- Modelled from the spec: backend `mul_const(cell, constant)` returns a
fresh cell representing cell × constant. -/
def mul_const (st : CircuitWriter F) (a : Nat) (c : F) (_sp : Nat) : Nat × CircuitWriter F :=
  (st.nextVar, ⟨st.nextVar + 1, Gate.defMulConst st.nextVar a c :: st.gates⟩)

/-- Modelled from the spec: backend `sub(cellA, cellB)` returns a fresh cell
representing the difference. -/
def sub (st : CircuitWriter F) (a b : Nat) (_sp : Nat) : Nat × CircuitWriter F :=
  (st.nextVar, ⟨st.nextVar + 1, Gate.defSub st.nextVar a b :: st.gates⟩)

/-- Modelled from the spec: backend `add_constant(label, constant)` allocates
a fresh cell fixed to a known constant value. -/
def add_constant (st : CircuitWriter F) (_label : Option String) (c : F) (_sp : Nat) :
    Nat × CircuitWriter F :=
  (st.nextVar, ⟨st.nextVar + 1, Gate.defConstant st.nextVar c :: st.gates⟩)

/-- Modelled from the spec: backend `new_internal_var(deferredExpr)` allocates
a fresh witness cell; the deferred expression is recorded but constrains
nothing (the solver may supply any value; only the asserted constraints
restrict the witness). -/
def new_internal_var (st : CircuitWriter F) (v : Value F) (_sp : Nat) :
    Nat × CircuitWriter F :=
  (st.nextVar, ⟨st.nextVar + 1, Gate.internalVar st.nextVar v :: st.gates⟩)

/-- Modelled from the spec: backend `assert_eq_var(cellA, cellB)` emits an
equality constraint between two cells. -/
def assert_eq_var (st : CircuitWriter F) (a b : Nat) (_sp : Nat) : CircuitWriter F :=
  ⟨st.nextVar, Gate.assertEqVar a b :: st.gates⟩

/-- Modelled from the spec: backend `assert_eq_const(cell, constant)` emits an
equality constraint between a cell and a known constant. -/
def assert_eq_const (st : CircuitWriter F) (a : Nat) (c : F) (_sp : Nat) : CircuitWriter F :=
  ⟨st.nextVar, Gate.assertEqConst a c :: st.gates⟩

end Backend

section Semantics

variable {F : Type} [Field F] [DecidableEq F]

/-- The value of a scalar under a witness assignment of cells. -/
def evalCvar (w : Nat → F) : ConstOrCell F → F
  | .Const c => c
  | .Cell i => w i

/-- The values of a compound value's scalars under a witness. -/
def evalVar (w : Nat → F) (v : Var F) : List F :=
  v.cvars.map (evalCvar w)

/-- Whether one constraint holds under a witness. -/
def gateHolds (w : Nat → F) : Gate F → Bool
  | .defNeg r a => decide (w r = - w a)
  | .defAdd r a b => decide (w r = w a + w b)
  | .defAddConst r a c => decide (w r = w a + c)
  | .defMul r a b => decide (w r = w a * w b)
  | .defMulConst r a c => decide (w r = w a * c)
  | .defSub r a b => decide (w r = w a - w b)
  | .defConstant r c => decide (w r = c)
  | .internalVar _ _ => true
  | .assertEqVar a b => decide (w a = w b)
  | .assertEqConst a c => decide (w a = c)

/-- A witness satisfies a constraint list when every constraint holds. -/
def satisfies (w : Nat → F) (gs : List (Gate F)) : Prop :=
  ∀ g ∈ gs, gateHolds w g = true

instance decSatisfies (w : Nat → F) (gs : List (Gate F)) : Decidable (satisfies w gs) :=
  List.decidableBAll _ gs

end Semantics

section Ops

variable {F : Type} [Field F] [DecidableEq F]

/-- Negates a field element (translated from `neg` in field.rs). -/
def neg (st : CircuitWriter F) (cvar : ConstOrCell F) (sp : Nat) :
    Var F × CircuitWriter F :=
  match cvar with
  | .Const ff => (Var.new_constant (-ff) sp, st)
  | .Cell v =>
    let p := Backend.neg st v sp
    (Var.new_var p.1 sp, p.2)

/-- Adds two field elements (translated from `add` in field.rs): constants
fold; adding the zero constant to a cell returns the cell unchanged;
otherwise a gate is emitted. -/
def add (st : CircuitWriter F) (lhs rhs : ConstOrCell F) (sp : Nat) :
    Var F × CircuitWriter F :=
  match lhs, rhs with
  | .Const l, .Const r => (Var.new_constant (l + r) sp, st)
  | .Const cst, .Cell cvar | .Cell cvar, .Const cst =>
    if cst = 0 then (Var.new_var cvar sp, st)
    else
      let p := Backend.add_const st cvar cst sp
      (Var.new_var p.1 sp, p.2)
  | .Cell l, .Cell r =>
    let p := Backend.add st l r sp
    (Var.new_var p.1 sp, p.2)

/-- Subtracts two scalars (translated from `sub` in field.rs):
`add(lhs, neg(rhs))`. -/
def sub (st : CircuitWriter F) (lhs rhs : ConstOrCell F) (sp : Nat) :
    Var F × CircuitWriter F :=
  let p := neg st rhs sp
  add p.2 lhs p.1.get0 sp

/-- Multiplies two field elements (translated from `mul` in field.rs):
constants fold; multiplying a cell by the zero constant returns the zero
constant; otherwise a gate is emitted. -/
def mul (st : CircuitWriter F) (lhs rhs : ConstOrCell F) (sp : Nat) :
    Var F × CircuitWriter F :=
  match lhs, rhs with
  | .Const l, .Const r => (Var.new_constant (l * r) sp, st)
  | .Const cst, .Cell cvar | .Cell cvar, .Const cst =>
    if cst = 0 then (Var.new_constant cst sp, st)
    else
      let p := Backend.mul_const st cvar cst sp
      (Var.new_var p.1 sp, p.2)
  | .Cell l, .Cell r =>
    let p := Backend.mul st l r sp
    (Var.new_var p.1 sp, p.2)

/-- Modelled from the spec: the boolean-module AND primitive
(`boolean::and`; `src/constraints/boolean.rs` is not among the given
sources).  The spec specifies only that it is boolean AND over
boolean-valued scalars with the same Constant/Cell duality as the field
layer; on boolean values AND is exactly the field product, so it is
modelled by `mul`. -/
def boolean.and (st : CircuitWriter F) (lhs rhs : ConstOrCell F) (sp : Nat) :
    Var F × CircuitWriter F :=
  mul st lhs rhs sp

/-- Modelled from the spec: the boolean-module NOT primitive
(`boolean::not`; `src/constraints/boolean.rs` is not among the given
sources).  On boolean values NOT is 1 − x, modelled via `sub`. -/
def boolean.not (st : CircuitWriter F) (v : ConstOrCell F) (sp : Nat) :
    Var F × CircuitWriter F :=
  sub st (ConstOrCell.Const 1) v sp

/-- The four-constraint equality gadget emitted by `equal_cells` once both
operands are cells (field.rs lines 193–218): `diff = x2 − x1`, a deferred
`diff_inv`, `diff_inv·diff`, a deferred `res = 1 − diff_inv·diff`,
`assert(diff_inv·diff = 1 − res)` and `assert(res·diff = 0)`. -/
def equal_cells_core (st : CircuitWriter F) (x1 x2 : Nat) (sp : Nat) :
    Var F × CircuitWriter F :=
  let p1 := Backend.sub st x2 x1 sp
  let p2 := Backend.new_internal_var p1.2 (Value.Inverse p1.1) sp
  let p3 := Backend.mul p2.2 p2.1 p1.1 sp
  let p4 := Backend.new_internal_var p3.2 (Value.LinearCombination [(-1, p3.1)] 1) sp
  let p5 := Backend.neg p4.2 p4.1 sp
  let p6 := Backend.add_const p5.2 p5.1 1 sp
  let st7 := Backend.assert_eq_var p6.2 p3.1 p6.1 sp
  let p8 := Backend.mul st7 p4.1 p1.1 sp
  let st9 := Backend.assert_eq_const p8.2 p8.1 0 sp
  (Var.new_var p4.1 sp, st9)

/-- Returns a scalar set to 1 if x1 equals x2 and 0 otherwise (translated
from `equal_cells` in field.rs): two constants compare directly with no
backend interaction; otherwise any constant operand is first materialized
as a cell via `add_constant` and the four-constraint gadget is emitted. -/
def equal_cells (st : CircuitWriter F) (x1 x2 : ConstOrCell F) (sp : Nat) :
    Var F × CircuitWriter F :=
  match x1, x2 with
  | .Const c1, .Const c2 =>
    (Var.new_constant (if c1 = c2 then 1 else 0) sp, st)
  | x1, x2 =>
    let p1 :=
      match x1 with
      | .Const cst =>
        Backend.add_constant st
          (some "encode the lhs constant of the equality check in the circuit") cst sp
      | .Cell cvar => (cvar, st)
    let p2 :=
      match x2 with
      | .Const cst =>
        Backend.add_constant p1.2
          (some "encode the rhs constant of the equality check in the circuit") cst sp
      | .Cell cvar => (cvar, p1.2)
    equal_cells_core p2.2 p1.1 p2.1 sp

/-- The AND-accumulation loop of `equal` (the `for` loop of field.rs lines
127–130): for each aligned pair of scalars, `equal_cells` then boolean AND
into the accumulator. -/
def equal_loop (st : CircuitWriter F) (pairs : List (ConstOrCell F × ConstOrCell F))
    (acc : Var F) (sp : Nat) : Var F × CircuitWriter F :=
  match pairs with
  | [] => (acc, st)
  | (l, r) :: rest =>
    let p := equal_cells st l r sp
    let q := boolean.and p.2 p.1.get0 acc.get0 sp
    equal_loop q.2 rest q.1 sp

/-- Compound equality (translated from `equal` in field.rs).  The Rust
`assert_eq!(lhs.len(), rhs.len())` abort is modelled by returning `none`.
Length 1 delegates to `equal_cells`; otherwise an accumulator cell fixed to
1 is allocated via `add_constant` and the per-element results are AND-ed
in. -/
def equal (st : CircuitWriter F) (lhs rhs : Var F) (sp : Nat) :
    Option (Var F × CircuitWriter F) :=
  if lhs.cvars.length = rhs.cvars.length then
    if lhs.cvars.length = 1 then
      some (equal_cells st lhs.get0 rhs.get0 sp)
    else
      let pa := Backend.add_constant st
        (some "start accumulator at 1 for the equality check") 1 sp
      some (equal_loop pa.2 (lhs.cvars.zip rhs.cvars) (Var.new_var pa.1 sp) sp)
  else none

/-- Returns 1 if the scalar is zero and 0 otherwise (translated from
`is_zero_cell` in field.rs): constants compare directly; a cell delegates to
`equal_cells` against the zero constant. -/
def is_zero_cell (st : CircuitWriter F) (v : ConstOrCell F) (sp : Nat) :
    Var F × CircuitWriter F :=
  match v with
  | .Const a => (Var.new_constant (if a = 0 then 1 else 0) sp, st)
  | .Cell _ => equal_cells st v (ConstOrCell.Const 0) sp

/-- The AND-accumulation loop of `not_equal` (the `for` loop of field.rs
lines 247–252): for each aligned pair, `sub`, `is_zero_cell`, boolean NOT,
then boolean AND into the accumulator. -/
def not_equal_loop (st : CircuitWriter F) (pairs : List (ConstOrCell F × ConstOrCell F))
    (acc : Var F) (sp : Nat) : Var F × CircuitWriter F :=
  match pairs with
  | [] => (acc, st)
  | (l, r) :: rest =>
    let p1 := sub st l r sp
    let p2 := is_zero_cell p1.2 p1.1.get0 sp
    let p3 := boolean.not p2.2 p2.1.get0 sp
    let p4 := boolean.and p3.2 p3.1.get0 acc.get0 sp
    not_equal_loop p4.2 rest p4.1 sp

/-- Compound inequality (translated from `not_equal` in field.rs).  The Rust
`assert_eq!(lhs.len(), rhs.len())` abort is modelled by returning `none`.
Length 1: `not(is_zero(lhs − rhs))`; otherwise the per-element results are
AND-ed into an accumulator started at 1. -/
def not_equal (st : CircuitWriter F) (lhs rhs : Var F) (sp : Nat) :
    Option (Var F × CircuitWriter F) :=
  if lhs.cvars.length = rhs.cvars.length then
    if lhs.cvars.length = 1 then
      let p1 := sub st lhs.get0 rhs.get0 sp
      let p2 := is_zero_cell p1.2 p1.1.get0 sp
      some (boolean.not p2.2 p2.1.get0 sp)
    else
      let pa := Backend.add_constant st
        (some "start accumulator at 1 for the inequality check") 1 sp
      some (not_equal_loop pa.2 (lhs.cvars.zip rhs.cvars) (Var.new_var pa.1 sp) sp)
  else none

/-- Scalar conditional selection (translated from `if_else_inner` in
field.rs), constraining `res = (1 − cond)·else + cond·then`.  A constant
condition short-circuits on an `is_one` test; a cell condition emits
`cond·then`, `1 − cond`, `(1 − cond)·else` and their sum. -/
def if_else_inner (st : CircuitWriter F) (cond then_ else_ : ConstOrCell F) (sp : Nat) :
    Var F × CircuitWriter F :=
  match cond with
  | .Const c =>
    if c = 1 then (Var.new_cvar then_ sp, st)
    else (Var.new_cvar else_ sp, st)
  | .Cell _ =>
    let p1 := mul st then_ cond sp
    let p2 := sub p1.2 (ConstOrCell.Const 1) cond sp
    let p3 := mul p2.2 p2.1.get0 else_ sp
    add p3.2 p1.1.get0 p3.1.get0 sp

/-- The element-wise loop of `if_else` (field.rs lines 292–295), pushing each
`if_else_inner` result scalar in order. -/
def if_else_loop (st : CircuitWriter F) (cond : ConstOrCell F)
    (pairs : List (ConstOrCell F × ConstOrCell F)) (vars : List (ConstOrCell F))
    (sp : Nat) : Var F × CircuitWriter F :=
  match pairs with
  | [] => (Var.new vars sp, st)
  | (t, e) :: rest =>
    let p := if_else_inner st cond t e sp
    if_else_loop p.2 cond rest (vars ++ [p.1.get0]) sp

/-- Compound conditional selection (translated from `if_else` in field.rs).
The Rust `assert_eq!(cond.len(), 1)` and `assert_eq!(then_.len(),
else_.len())` aborts are modelled by returning `none`; otherwise
`if_else_inner` is applied element-wise with the same condition scalar. -/
def if_else (st : CircuitWriter F) (cond then_ else_ : Var F) (sp : Nat) :
    Option (Var F × CircuitWriter F) :=
  if cond.cvars.length = 1 then
    if then_.cvars.length = else_.cvars.length then
      some (if_else_loop st cond.get0 (then_.cvars.zip else_.cvars) [] sp)
    else none
  else none

end Ops

section WitnessData

/-- A witness assignment read off a finite list (zero elsewhere). -/
def wFromList (l : List (ZMod 7)) : Nat → ZMod 7 := fun n => l.getD n 0

/-- Witness for the `equal_cells` gadget on cells 0/1 both valued 3. -/
def wC1 : Nat → ZMod 7 := wFromList [3, 3, 0, 0, 0, 1, 6, 0, 0]

/-- Witness for `equal v v` with cell 0 valued 4. -/
def wC3a : Nat → ZMod 7 := wFromList [4, 0, 0, 0, 1, 6, 0, 0]

/-- Witness for `equal [cell 0] [const 5]` with cell 0 valued 4. -/
def wC3b : Nat → ZMod 7 := wFromList [4, 5, 1, 1, 1, 0, 0, 1, 0]

/-- Witness for the `not_equal` run on vectors (3, 5) and (3, 6): input cells
0–3, then every intermediate cell of the emitted circuit. -/
def wNE : Nat → ZMod 7 := wFromList
  [3, 5, 3, 6, 1, 4, 0, 0, 0, 0, 0, 1, 6, 0, 0, 6, 0, 0, 1, 6, 0, 1, 1, 1, 0, 0, 1, 0, 0, 1, 0]

/-- Witness for the cell-conditioned `if_else_inner` run: condition cell 0
valued 1, branch cells 1/2 valued 5/4, then the intermediate cells. -/
def wC7 : Nat → ZMod 7 := wFromList [1, 5, 4, 5, 6, 0, 0, 5]

/-- Fallback output used with `Option.getD` when naming a concrete run. -/
def dummyOut : Var (ZMod 7) × CircuitWriter (ZMod 7) := (⟨[], 0⟩, ⟨0, []⟩)

def c2Lhs : Var (ZMod 7) := ⟨[ConstOrCell.Cell 0, ConstOrCell.Cell 1], 0⟩

def c2Rhs : Var (ZMod 7) := ⟨[ConstOrCell.Cell 2, ConstOrCell.Cell 3], 0⟩

/-- The concrete `not_equal` run on length-2 inputs. -/
def c2Out : Var (ZMod 7) × CircuitWriter (ZMod 7) :=
  (not_equal (⟨4, []⟩ : CircuitWriter (ZMod 7)) c2Lhs c2Rhs 0).getD dummyOut

/-- The concrete `equal v v` run of length 1. -/
def c3ReflOut : Var (ZMod 7) × CircuitWriter (ZMod 7) :=
  (equal (⟨1, []⟩ : CircuitWriter (ZMod 7)) ⟨[ConstOrCell.Cell 0], 0⟩
    ⟨[ConstOrCell.Cell 0], 0⟩ 0).getD dummyOut

/-- The concrete `equal [cell] [const]` run of length 1. -/
def c3DiffOut : Var (ZMod 7) × CircuitWriter (ZMod 7) :=
  (equal (⟨1, []⟩ : CircuitWriter (ZMod 7)) ⟨[ConstOrCell.Cell 0], 0⟩
    ⟨[ConstOrCell.Const 5], 0⟩ 0).getD dummyOut

/-- The concrete all-constant `equal` run with a differing pair. -/
def c9Out : Var (ZMod 7) × CircuitWriter (ZMod 7) :=
  (equal (⟨0, []⟩ : CircuitWriter (ZMod 7))
    ⟨[ConstOrCell.Const 1, ConstOrCell.Const 2], 0⟩
    ⟨[ConstOrCell.Const 1, ConstOrCell.Const 3], 0⟩ 0).getD dummyOut

def c9wIn : Var (ZMod 7) := ⟨[ConstOrCell.Const 2, ConstOrCell.Const 5], 0⟩

/-- The concrete all-constant `equal` run with all pairs equal. -/
def c9wOut : Var (ZMod 7) × CircuitWriter (ZMod 7) :=
  (equal (⟨0, []⟩ : CircuitWriter (ZMod 7)) c9wIn c9wIn 0).getD dummyOut

end WitnessData

section Lemmas

variable {F : Type} [Field F] [DecidableEq F]

theorem satisfies_cons {w : Nat → F} {g : Gate F} {gs : List (Gate F)} :
    satisfies w (g :: gs) ↔ gateHolds w g = true ∧ satisfies w gs :=
  List.forall_mem_cons

/-- One circuit state extends another when its constraint list grows it. -/
def StateExtends (st st2 : CircuitWriter F) : Prop :=
  ∃ gs, st2.gates = gs ++ st.gates

theorem StateExtends.refl (st : CircuitWriter F) : StateExtends st st :=
  ⟨[], rfl⟩

theorem StateExtends.trans {s1 s2 s3 : CircuitWriter F}
    (h1 : StateExtends s1 s2) (h2 : StateExtends s2 s3) : StateExtends s1 s3 := by
  obtain ⟨g1, e1⟩ := h1
  obtain ⟨g2, e2⟩ := h2
  exact ⟨g2 ++ g1, by rw [e2, e1, List.append_assoc]⟩

theorem satisfies_of_extends {w : Nat → F} {s1 s2 : CircuitWriter F}
    (h : StateExtends s1 s2) (hw : satisfies w s2.gates) : satisfies w s1.gates := by
  obtain ⟨gs, e⟩ := h
  intro g hg
  exact hw g (by rw [e]; exact List.mem_append_right _ hg)

theorem mem_gates_of_extends {g : Gate F} {s1 s2 : CircuitWriter F}
    (h : StateExtends s1 s2) (hg : g ∈ s1.gates) : g ∈ s2.gates := by
  obtain ⟨gs, e⟩ := h
  rw [e]
  exact List.mem_append_right _ hg

/-- If a compound value evaluates to a singleton list, its head scalar
evaluates to that value. -/
theorem get0_eval {w : Nat → F} {v : Var F} {x : F}
    (h : evalVar w v = [x]) : evalCvar w v.get0 = x := by
  cases hv : v.cvars with
  | nil => simp [evalVar, hv] at h
  | cons c t =>
    simp only [evalVar, hv, List.map_cons, List.cons.injEq] at h
    simp [Var.get0, hv, h.1]

theorem neg_extends (st : CircuitWriter F) (a : ConstOrCell F) (sp : Nat) :
    StateExtends st (neg st a sp).2 := by
  cases a with
  | Const c => exact ⟨[], rfl⟩
  | Cell v => exact ⟨[Gate.defNeg st.nextVar v], rfl⟩

theorem add_extends (st : CircuitWriter F) (a b : ConstOrCell F) (sp : Nat) :
    StateExtends st (add st a b sp).2 := by
  cases a with
  | Const c =>
    cases b with
    | Const d => exact ⟨[], rfl⟩
    | Cell v =>
      by_cases hc : c = 0
      · exact ⟨[], by simp [add, hc]⟩
      · exact ⟨[Gate.defAddConst st.nextVar v c], by simp [add, hc, Backend.add_const]⟩
  | Cell v =>
    cases b with
    | Const d =>
      by_cases hd : d = 0
      · exact ⟨[], by simp [add, hd]⟩
      · exact ⟨[Gate.defAddConst st.nextVar v d], by simp [add, hd, Backend.add_const]⟩
    | Cell u => exact ⟨[Gate.defAdd st.nextVar v u], rfl⟩

theorem mul_extends (st : CircuitWriter F) (a b : ConstOrCell F) (sp : Nat) :
    StateExtends st (mul st a b sp).2 := by
  cases a with
  | Const c =>
    cases b with
    | Const d => exact ⟨[], rfl⟩
    | Cell v =>
      by_cases hc : c = 0
      · exact ⟨[], by simp [mul, hc]⟩
      · exact ⟨[Gate.defMulConst st.nextVar v c], by simp [mul, hc, Backend.mul_const]⟩
  | Cell v =>
    cases b with
    | Const d =>
      by_cases hd : d = 0
      · exact ⟨[], by simp [mul, hd]⟩
      · exact ⟨[Gate.defMulConst st.nextVar v d], by simp [mul, hd, Backend.mul_const]⟩
    | Cell u => exact ⟨[Gate.defMul st.nextVar v u], rfl⟩

theorem sub_extends (st : CircuitWriter F) (a b : ConstOrCell F) (sp : Nat) :
    StateExtends st (sub st a b sp).2 :=
  (neg_extends st b sp).trans (add_extends _ a _ sp)

theorem neg_eval (st : CircuitWriter F) (a : ConstOrCell F) (sp : Nat) (w : Nat → F)
    (h : satisfies w ((neg st a sp).2).gates) :
    evalVar w (neg st a sp).1 = [-(evalCvar w a)] := by
  cases a with
  | Const c => simp [neg, evalVar, Var.new_constant, evalCvar]
  | Cell v =>
    have hg := (satisfies_cons.mp h).1
    simp only [gateHolds, decide_eq_true_eq] at hg
    simp [neg, Backend.neg, evalVar, Var.new_var, evalCvar, hg]

theorem add_eval (st : CircuitWriter F) (a b : ConstOrCell F) (sp : Nat) (w : Nat → F)
    (h : satisfies w ((add st a b sp).2).gates) :
    evalVar w (add st a b sp).1 = [evalCvar w a + evalCvar w b] := by
  cases a with
  | Const c =>
    cases b with
    | Const d => simp [add, evalVar, Var.new_constant, evalCvar]
    | Cell v =>
      by_cases hc : c = 0
      · simp [add, hc, evalVar, Var.new_var, evalCvar]
      · simp only [add, hc, if_neg hc, ite_false, Backend.add_const] at h ⊢
        have hg := (satisfies_cons.mp h).1
        simp only [gateHolds, decide_eq_true_eq] at hg
        simp [evalVar, Var.new_var, evalCvar, hg]
        ring
  | Cell v =>
    cases b with
    | Const d =>
      by_cases hd : d = 0
      · simp [add, hd, evalVar, Var.new_var, evalCvar]
      · simp only [add, hd, if_neg hd, ite_false, Backend.add_const] at h ⊢
        have hg := (satisfies_cons.mp h).1
        simp only [gateHolds, decide_eq_true_eq] at hg
        simp [evalVar, Var.new_var, evalCvar, hg]
    | Cell u =>
      have hg := (satisfies_cons.mp h).1
      simp only [gateHolds, decide_eq_true_eq] at hg
      simp [add, Backend.add, evalVar, Var.new_var, evalCvar, hg]

theorem mul_eval (st : CircuitWriter F) (a b : ConstOrCell F) (sp : Nat) (w : Nat → F)
    (h : satisfies w ((mul st a b sp).2).gates) :
    evalVar w (mul st a b sp).1 = [evalCvar w a * evalCvar w b] := by
  cases a with
  | Const c =>
    cases b with
    | Const d => simp [mul, evalVar, Var.new_constant, evalCvar]
    | Cell v =>
      by_cases hc : c = 0
      · simp [mul, hc, evalVar, Var.new_constant, evalCvar]
      · simp only [mul, hc, if_neg hc, ite_false, Backend.mul_const] at h ⊢
        have hg := (satisfies_cons.mp h).1
        simp only [gateHolds, decide_eq_true_eq] at hg
        simp [evalVar, Var.new_var, evalCvar, hg]
        ring
  | Cell v =>
    cases b with
    | Const d =>
      by_cases hd : d = 0
      · simp [mul, hd, evalVar, Var.new_constant, evalCvar]
      · simp only [mul, hd, if_neg hd, ite_false, Backend.mul_const] at h ⊢
        have hg := (satisfies_cons.mp h).1
        simp only [gateHolds, decide_eq_true_eq] at hg
        simp [evalVar, Var.new_var, evalCvar, hg]
    | Cell u =>
      have hg := (satisfies_cons.mp h).1
      simp only [gateHolds, decide_eq_true_eq] at hg
      simp [mul, Backend.mul, evalVar, Var.new_var, evalCvar, hg]

theorem sub_eval (st : CircuitWriter F) (a b : ConstOrCell F) (sp : Nat) (w : Nat → F)
    (h : satisfies w ((sub st a b sp).2).gates) :
    evalVar w (sub st a b sp).1 = [evalCvar w a - evalCvar w b] := by
  unfold sub at h ⊢
  have hneg : satisfies w ((neg st b sp).2).gates :=
    satisfies_of_extends (add_extends _ a _ sp) h
  have h1 := neg_eval st b sp w hneg
  have h2 := add_eval (neg st b sp).2 a (neg st b sp).1.get0 sp w h
  rw [get0_eval h1] at h2
  rw [h2]
  ring_nf

theorem equal_cells_core_gates (st : CircuitWriter F) (x1 x2 sp : Nat) :
    (equal_cells_core st x1 x2 sp).2.gates =
      [Gate.assertEqConst (st.nextVar+6) 0,
       Gate.defMul (st.nextVar+6) (st.nextVar+3) st.nextVar,
       Gate.assertEqVar (st.nextVar+2) (st.nextVar+5),
       Gate.defAddConst (st.nextVar+5) (st.nextVar+4) 1,
       Gate.defNeg (st.nextVar+4) (st.nextVar+3),
       Gate.internalVar (st.nextVar+3) (Value.LinearCombination [(-1, st.nextVar+2)] 1),
       Gate.defMul (st.nextVar+2) (st.nextVar+1) st.nextVar,
       Gate.internalVar (st.nextVar+1) (Value.Inverse st.nextVar),
       Gate.defSub st.nextVar x2 x1] ++ st.gates := rfl

theorem equal_cells_core_res (st : CircuitWriter F) (x1 x2 sp : Nat) :
    (equal_cells_core st x1 x2 sp).1 = Var.new_var (st.nextVar + 3) sp := rfl

theorem equal_cells_core_extends (st : CircuitWriter F) (x1 x2 sp : Nat) :
    StateExtends st (equal_cells_core st x1 x2 sp).2 :=
  ⟨_, equal_cells_core_gates st x1 x2 sp⟩

/-- Soundness of the four-constraint gadget: under every witness satisfying
the emitted constraints, the result cell holds 1 when the two operand cells
agree and 0 otherwise — regardless of what value the solver supplied for
the deferred `diff_inv` cell. -/
theorem equal_cells_core_sound (st : CircuitWriter F) (x1 x2 sp : Nat) (w : Nat → F)
    (h : satisfies w ((equal_cells_core st x1 x2 sp).2).gates) :
    evalVar w (equal_cells_core st x1 x2 sp).1 = [if w x1 = w x2 then 1 else 0] := by
  rw [equal_cells_core_gates] at h
  simp only [List.cons_append, List.nil_append] at h
  simp only [satisfies_cons, gateHolds, decide_eq_true_eq] at h
  obtain ⟨hz, hm2, heqv, haddc, hneg, -, hm, -, hd, -⟩ := h
  rw [equal_cells_core_res]
  simp only [evalVar, Var.new_var, List.map_cons, List.map_nil, evalCvar, List.cons.injEq,
    and_true]
  by_cases hc : w x1 = w x2
  · rw [if_pos hc]
    have hdz : w st.nextVar = 0 := by rw [hd, hc, sub_self]
    have h1 : w (st.nextVar + 2) = 0 := by rw [hm, hdz, mul_zero]
    have h2 : (0 : F) = -(w (st.nextVar + 3)) + 1 := by
      rw [← h1, heqv, haddc, hneg]
    linear_combination h2
  · rw [if_neg hc]
    have hdz : w st.nextVar ≠ 0 := by
      rw [hd]
      exact sub_ne_zero_of_ne (Ne.symm hc)
    have h1 : w (st.nextVar + 3) * w st.nextVar = 0 := by rw [← hm2, hz]
    rcases mul_eq_zero.mp h1 with h | h
    · exact h
    · exact absurd h hdz

theorem equal_cells_extends (st : CircuitWriter F) (x1 x2 : ConstOrCell F) (sp : Nat) :
    StateExtends st (equal_cells st x1 x2 sp).2 := by
  cases x1 with
  | Const c1 =>
    cases x2 with
    | Const c2 => exact ⟨[], rfl⟩
    | Cell i2 =>
      exact StateExtends.trans ⟨[Gate.defConstant st.nextVar c1], rfl⟩
        (equal_cells_core_extends _ _ _ _)
  | Cell i1 =>
    cases x2 with
    | Const c2 =>
      exact StateExtends.trans ⟨[Gate.defConstant st.nextVar c2], rfl⟩
        (equal_cells_core_extends _ _ _ _)
    | Cell i2 => exact equal_cells_core_extends st i1 i2 sp

theorem equal_cells_shape (st : CircuitWriter F) (x1 x2 : ConstOrCell F) (sp : Nat) :
    ∃ c st2, equal_cells st x1 x2 sp = (Var.new_cvar c sp, st2) := by
  cases x1 with
  | Const c1 =>
    cases x2 with
    | Const c2 => exact ⟨_, _, rfl⟩
    | Cell i2 => exact ⟨_, _, rfl⟩
  | Cell i1 =>
    cases x2 with
    | Const c2 => exact ⟨_, _, rfl⟩
    | Cell i2 => exact ⟨_, _, rfl⟩

/-- Soundness of `equal_cells` for arbitrary operands: under every witness
satisfying the emitted constraints, the result is 1 when the operands agree
under the witness and 0 otherwise (constants materialized via `add_constant`
are pinned to their value by the emitted constraint). -/
theorem equal_cells_eval (st : CircuitWriter F) (x1 x2 : ConstOrCell F) (sp : Nat)
    (w : Nat → F) (h : satisfies w ((equal_cells st x1 x2 sp).2).gates) :
    evalVar w (equal_cells st x1 x2 sp).1
      = [if evalCvar w x1 = evalCvar w x2 then 1 else 0] := by
  cases x1 with
  | Const c1 =>
    cases x2 with
    | Const c2 => simp [equal_cells, evalVar, Var.new_constant, evalCvar]
    | Cell i2 =>
      have h2 : satisfies w ((equal_cells_core
          (⟨st.nextVar + 1, Gate.defConstant st.nextVar c1 :: st.gates⟩ : CircuitWriter F)
          st.nextVar i2 sp).2).gates := h
      have hst1 := satisfies_of_extends (equal_cells_core_extends
        (⟨st.nextVar + 1, Gate.defConstant st.nextVar c1 :: st.gates⟩ : CircuitWriter F)
        st.nextVar i2 sp) h2
      have hwn : w st.nextVar = c1 := by
        have := (satisfies_cons.mp hst1).1
        simpa [gateHolds] using this
      have hcore := equal_cells_core_sound
        (⟨st.nextVar + 1, Gate.defConstant st.nextVar c1 :: st.gates⟩ : CircuitWriter F)
        st.nextVar i2 sp w h2
      show evalVar w (equal_cells_core
          (⟨st.nextVar + 1, Gate.defConstant st.nextVar c1 :: st.gates⟩ : CircuitWriter F)
          st.nextVar i2 sp).1 = _
      rw [hcore]
      simp [evalCvar, hwn]
  | Cell i1 =>
    cases x2 with
    | Const c2 =>
      have h2 : satisfies w ((equal_cells_core
          (⟨st.nextVar + 1, Gate.defConstant st.nextVar c2 :: st.gates⟩ : CircuitWriter F)
          i1 st.nextVar sp).2).gates := h
      have hst1 := satisfies_of_extends (equal_cells_core_extends
        (⟨st.nextVar + 1, Gate.defConstant st.nextVar c2 :: st.gates⟩ : CircuitWriter F)
        i1 st.nextVar sp) h2
      have hwn : w st.nextVar = c2 := by
        have := (satisfies_cons.mp hst1).1
        simpa [gateHolds] using this
      have hcore := equal_cells_core_sound
        (⟨st.nextVar + 1, Gate.defConstant st.nextVar c2 :: st.gates⟩ : CircuitWriter F)
        i1 st.nextVar sp w h2
      show evalVar w (equal_cells_core
          (⟨st.nextVar + 1, Gate.defConstant st.nextVar c2 :: st.gates⟩ : CircuitWriter F)
          i1 st.nextVar sp).1 = _
      rw [hcore]
      simp [evalCvar, hwn]
    | Cell i2 =>
      have hcore := equal_cells_core_sound st i1 i2 sp w h
      show evalVar w (equal_cells_core st i1 i2 sp).1 = _
      rw [hcore]
      simp [evalCvar]

theorem mul_shape (st : CircuitWriter F) (a b : ConstOrCell F) (sp : Nat) :
    ∃ c st2, mul st a b sp = (Var.new_cvar c sp, st2) := by
  cases a with
  | Const c =>
    cases b with
    | Const d => exact ⟨_, _, rfl⟩
    | Cell v =>
      by_cases hc : c = 0
      · exact ⟨ConstOrCell.Const c, st, by simp [mul, hc, Var.new_cvar, Var.new_constant]⟩
      · exact ⟨ConstOrCell.Cell st.nextVar,
          ⟨st.nextVar + 1, Gate.defMulConst st.nextVar v c :: st.gates⟩,
          by simp [mul, hc, Backend.mul_const, Var.new_cvar, Var.new_var]⟩
  | Cell v =>
    cases b with
    | Const d =>
      by_cases hd : d = 0
      · exact ⟨ConstOrCell.Const d, st, by simp [mul, hd, Var.new_cvar, Var.new_constant]⟩
      · exact ⟨ConstOrCell.Cell st.nextVar,
          ⟨st.nextVar + 1, Gate.defMulConst st.nextVar v d :: st.gates⟩,
          by simp [mul, hd, Backend.mul_const, Var.new_cvar, Var.new_var]⟩
    | Cell u => exact ⟨_, _, rfl⟩

theorem and_extends (st : CircuitWriter F) (a b : ConstOrCell F) (sp : Nat) :
    StateExtends st (boolean.and st a b sp).2 :=
  mul_extends st a b sp

theorem and_eval (st : CircuitWriter F) (a b : ConstOrCell F) (sp : Nat) (w : Nat → F)
    (h : satisfies w ((boolean.and st a b sp).2).gates) :
    evalVar w (boolean.and st a b sp).1 = [evalCvar w a * evalCvar w b] :=
  mul_eval st a b sp w h

theorem and_shape (st : CircuitWriter F) (a b : ConstOrCell F) (sp : Nat) :
    ∃ c st2, boolean.and st a b sp = (Var.new_cvar c sp, st2) :=
  mul_shape st a b sp

/-- For equal-length lists, agreement of every aligned pair is the same as
equality of the mapped lists. -/
theorem zip_forall_iff_map_eq (f : ConstOrCell F → F) (l1 : List (ConstOrCell F)) :
    ∀ l2 : List (ConstOrCell F), l1.length = l2.length →
      ((∀ p ∈ l1.zip l2, f p.1 = f p.2) ↔ l1.map f = l2.map f) := by
  induction l1 with
  | nil =>
    intro l2 h
    cases l2 with
    | nil => simp
    | cons b t => simp at h
  | cons a t ih =>
    intro l2 h
    cases l2 with
    | nil => simp at h
    | cons b t2 =>
      simp only [List.length_cons, add_left_inj] at h
      simp only [List.zip_cons_cons, List.forall_mem_cons, List.map_cons, List.cons.injEq]
      rw [ih t2 h]

theorem equal_loop_extends (pairs : List (ConstOrCell F × ConstOrCell F)) :
    ∀ (st : CircuitWriter F) (acc : Var F) (sp : Nat),
      StateExtends st (equal_loop st pairs acc sp).2 := by
  induction pairs with
  | nil =>
    intro st acc sp
    exact StateExtends.refl st
  | cons pr rest ih =>
    intro st acc sp
    obtain ⟨l, r⟩ := pr
    simp only [equal_loop]
    exact ((equal_cells_extends st l r sp).trans (and_extends _ _ _ sp)).trans (ih _ _ sp)

/-- The AND-accumulation loop multiplies the accumulator by the indicator of
all aligned pairs agreeing, under any satisfying witness. -/
theorem equal_loop_get0 (pairs : List (ConstOrCell F × ConstOrCell F)) :
    ∀ (st : CircuitWriter F) (acc : Var F) (sp : Nat) (w : Nat → F),
      satisfies w ((equal_loop st pairs acc sp).2).gates →
      evalCvar w (equal_loop st pairs acc sp).1.get0
        = evalCvar w acc.get0 *
          (if ∀ p ∈ pairs, evalCvar w p.1 = evalCvar w p.2 then 1 else 0) := by
  induction pairs with
  | nil =>
    intro st acc sp w h
    simp [equal_loop]
  | cons pr rest ih =>
    intro st acc sp w h
    obtain ⟨l, r⟩ := pr
    simp only [equal_loop] at h ⊢
    rw [ih _ _ sp w h]
    have hand : satisfies w ((boolean.and (equal_cells st l r sp).2
        (equal_cells st l r sp).1.get0 acc.get0 sp).2).gates :=
      satisfies_of_extends (equal_loop_extends rest _ _ sp) h
    have hmul := and_eval (equal_cells st l r sp).2
        (equal_cells st l r sp).1.get0 acc.get0 sp w hand
    have hec : satisfies w ((equal_cells st l r sp).2).gates :=
      satisfies_of_extends (and_extends _ _ _ sp) hand
    have heval := equal_cells_eval st l r sp w hec
    rw [get0_eval hmul, get0_eval heval]
    simp only [List.forall_mem_cons]
    by_cases hlr : evalCvar w l = evalCvar w r
    · rw [if_pos hlr]
      by_cases hr2 : ∀ p ∈ rest, evalCvar w p.1 = evalCvar w p.2
      · rw [if_pos hr2, if_pos ⟨hlr, hr2⟩]
        ring
      · rw [if_neg hr2, if_neg (show ¬(evalCvar w l = evalCvar w r ∧
            ∀ p ∈ rest, evalCvar w p.1 = evalCvar w p.2) from fun hx => hr2 hx.2)]
        ring
    · rw [if_neg hlr, if_neg (show ¬(evalCvar w l = evalCvar w r ∧
          ∀ p ∈ rest, evalCvar w p.1 = evalCvar w p.2) from fun hx => hlr hx.1)]
      ring

theorem equal_loop_shape (pairs : List (ConstOrCell F × ConstOrCell F)) :
    ∀ (st : CircuitWriter F) (acc : Var F) (sp : Nat),
      (∃ c, acc = Var.new_cvar c sp) →
      ∃ c2 st2, equal_loop st pairs acc sp = (Var.new_cvar c2 sp, st2) := by
  induction pairs with
  | nil =>
    intro st acc sp hacc
    obtain ⟨c, hc⟩ := hacc
    exact ⟨c, st, by simp [equal_loop, hc]⟩
  | cons pr rest ih =>
    intro st acc sp hacc
    obtain ⟨l, r⟩ := pr
    simp only [equal_loop]
    obtain ⟨c2, st2, hand⟩ := and_shape ((equal_cells st l r sp).2)
      ((equal_cells st l r sp).1.get0) acc.get0 sp
    rw [hand]
    exact ih st2 (Var.new_cvar c2 sp) sp ⟨c2, rfl⟩

/-- Soundness of compound `equal`: whenever it returns (the lengths matched),
the result evaluates under every satisfying witness to 1 when the two
operand vectors agree element-wise and to 0 otherwise. -/
theorem equal_sound (st : CircuitWriter F) (lhs rhs : Var F) (sp : Nat)
    (out : Var F × CircuitWriter F) (hout : equal st lhs rhs sp = some out)
    (w : Nat → F) (hw : satisfies w out.2.gates) :
    evalVar w out.1
      = [if lhs.cvars.map (evalCvar w) = rhs.cvars.map (evalCvar w) then 1 else 0] := by
  unfold equal at hout
  by_cases hlen : lhs.cvars.length = rhs.cvars.length
  swap
  · rw [if_neg hlen] at hout
    exact absurd hout (by simp)
  rw [if_pos hlen] at hout
  by_cases h1 : lhs.cvars.length = 1
  · rw [if_pos h1] at hout
    obtain ⟨l, hl⟩ := List.length_eq_one.mp h1
    obtain ⟨r, hr⟩ := List.length_eq_one.mp (hlen.symm.trans h1)
    have hout2 : out = equal_cells st lhs.get0 rhs.get0 sp := (Option.some.inj hout).symm
    subst hout2
    rw [equal_cells_eval st lhs.get0 rhs.get0 sp w hw]
    simp [hl, hr, Var.get0]
  · rw [if_neg h1] at hout
    simp only [Backend.add_constant] at hout
    have hout2 : out = equal_loop
        (⟨st.nextVar + 1, Gate.defConstant st.nextVar 1 :: st.gates⟩ : CircuitWriter F)
        (lhs.cvars.zip rhs.cvars) (Var.new_var st.nextVar sp) sp :=
      (Option.some.inj hout).symm
    subst hout2
    have hst1 : satisfies w (CircuitWriter.mk (st.nextVar + 1)
        (Gate.defConstant st.nextVar 1 :: st.gates)).gates :=
      satisfies_of_extends (equal_loop_extends _ _ _ sp) hw
    have hacc : w st.nextVar = 1 := by
      have := (satisfies_cons.mp hst1).1
      simpa [gateHolds] using this
    have hloop := equal_loop_get0 (lhs.cvars.zip rhs.cvars) _ (Var.new_var st.nextVar sp) sp w hw
    obtain ⟨c2, st2, hshape⟩ := equal_loop_shape (lhs.cvars.zip rhs.cvars)
      (⟨st.nextVar + 1, Gate.defConstant st.nextVar 1 :: st.gates⟩ : CircuitWriter F)
      (Var.new_var st.nextVar sp) sp ⟨ConstOrCell.Cell st.nextVar, rfl⟩
    rw [hshape] at hloop ⊢
    have hc2 : evalCvar w c2 = if ∀ p ∈ lhs.cvars.zip rhs.cvars,
        evalCvar w p.1 = evalCvar w p.2 then 1 else 0 := by
      simpa [Var.new_cvar, Var.new_var, Var.get0, evalCvar, hacc] using hloop
    have hiff := zip_forall_iff_map_eq (evalCvar w) lhs.cvars rhs.cvars hlen
    simp only [evalVar, Var.new_cvar, List.map_cons, List.map_nil, List.cons.injEq, and_true]
    rw [hc2]
    simp only [hiff]

/-- With the constant condition 1, the element-wise selection loop returns
the `then` scalars, in order, without touching the circuit state. -/
theorem if_else_loop_one (pairs : List (ConstOrCell F × ConstOrCell F)) :
    ∀ (st : CircuitWriter F) (vars : List (ConstOrCell F)) (sp : Nat),
      if_else_loop st (ConstOrCell.Const 1) pairs vars sp
        = (Var.new (vars ++ pairs.map Prod.fst) sp, st) := by
  induction pairs with
  | nil =>
    intro st vars sp
    simp [if_else_loop, Var.new]
  | cons pr rest ih =>
    intro st vars sp
    obtain ⟨t, e⟩ := pr
    simp only [if_else_loop, if_else_inner, if_pos rfl]
    rw [ih]
    simp [Var.new_cvar, Var.get0, List.append_assoc]

/-- With any constant condition other than 1 (the `is_one` test fails), the
element-wise selection loop returns the `else` scalars, in order, without
touching the circuit state. -/
theorem if_else_loop_not_one (c : F) (hc : c ≠ 1)
    (pairs : List (ConstOrCell F × ConstOrCell F)) :
    ∀ (st : CircuitWriter F) (vars : List (ConstOrCell F)) (sp : Nat),
      if_else_loop st (ConstOrCell.Const c) pairs vars sp
        = (Var.new (vars ++ pairs.map Prod.snd) sp, st) := by
  induction pairs with
  | nil =>
    intro st vars sp
    simp [if_else_loop, Var.new]
  | cons pr rest ih =>
    intro st vars sp
    obtain ⟨t, e⟩ := pr
    simp only [if_else_loop, if_else_inner, if_neg hc]
    rw [ih]
    simp [Var.new_cvar, Var.get0, List.append_assoc]

/-- Under any satisfying witness, a cell-conditioned `if_else_inner` result
equals `then·cond + (1 − cond)·else`. -/
theorem if_else_inner_cell_eval (st : CircuitWriter F) (i : Nat) (t e : ConstOrCell F)
    (sp : Nat) (w : Nat → F)
    (h : satisfies w ((if_else_inner st (ConstOrCell.Cell i) t e sp).2).gates) :
    evalVar w (if_else_inner st (ConstOrCell.Cell i) t e sp).1
      = [evalCvar w t * w i + (1 - w i) * evalCvar w e] := by
  simp only [if_else_inner] at h ⊢
  set p1 := mul st t (ConstOrCell.Cell i) sp with hp1
  set p2 := sub p1.2 (ConstOrCell.Const 1) (ConstOrCell.Cell i) sp with hp2
  set p3 := mul p2.2 p2.1.get0 e sp with hp3
  have hsat3 : satisfies w p3.2.gates :=
    satisfies_of_extends (add_extends p3.2 p1.1.get0 p3.1.get0 sp) h
  have hsat2 : satisfies w p2.2.gates :=
    satisfies_of_extends (mul_extends p2.2 p2.1.get0 e sp) hsat3
  have hsat1 : satisfies w p1.2.gates :=
    satisfies_of_extends (sub_extends p1.2 (ConstOrCell.Const 1) (ConstOrCell.Cell i) sp) hsat2
  have h1 := mul_eval st t (ConstOrCell.Cell i) sp w hsat1
  rw [← hp1] at h1
  have h2 := sub_eval p1.2 (ConstOrCell.Const 1) (ConstOrCell.Cell i) sp w hsat2
  rw [← hp2] at h2
  have h3 := mul_eval p2.2 p2.1.get0 e sp w hsat3
  rw [← hp3] at h3
  rw [get0_eval h2] at h3
  have hadd := add_eval p3.2 p1.1.get0 p3.1.get0 sp w h
  rw [get0_eval h1, get0_eval h3] at hadd
  rw [hadd]
  simp [evalCvar]

/-- With aligned equal-constant pairs, the AND-accumulation loop keeps the
accumulator cell-backed: `equal_cells` yields the constant 1 and the AND
(a multiplication by the non-zero constant 1) allocates a fresh cell. -/
theorem equal_loop_allconst_cell (cs : List F) :
    ∀ (st : CircuitWriter F) (a : Nat) (sp : Nat),
      ∃ i st2, equal_loop st (cs.map (fun c => (ConstOrCell.Const c, ConstOrCell.Const c)))
          (Var.new_var a sp) sp = (Var.new_var i sp, st2) := by
  induction cs with
  | nil =>
    intro st a sp
    exact ⟨a, st, rfl⟩
  | cons c rest ih =>
    intro st a sp
    simp only [List.map_cons, equal_loop]
    have hec : equal_cells st (ConstOrCell.Const c) (ConstOrCell.Const c) sp
        = (Var.new_constant 1 sp, st) := by simp [equal_cells]
    rw [hec]
    have hand : boolean.and st (Var.new_constant (1 : F) sp).get0 (Var.new_var a sp).get0 sp
        = (Var.new_var st.nextVar sp,
           ⟨st.nextVar + 1, Gate.defMulConst st.nextVar a 1 :: st.gates⟩) := by
      simp [boolean.and, mul, Var.new_constant, Var.new_var, Var.get0, Backend.mul_const,
        one_ne_zero]
    rw [hand]
    exact ih _ st.nextVar sp

end Lemmas

section Claims

/-- C1: for scalar inputs with at least one Cell, `equal_cells` emits a
constraint set that forces the returned scalar to 1 exactly when the
witnessed values of the operands are equal and to 0 otherwise, in every
satisfying witness — so no other value of `res` is possible, whatever
value the solver supplies for the deferred `diff_inv` cell; for two
Constants it compares directly and returns Constant 1 or 0 with no backend
interaction. -/
theorem equal_cells_correct :
    (∀ {F : Type} [Field F] [DecidableEq F] (st : CircuitWriter F)
        (x1 x2 : ConstOrCell F) (sp : Nat) (w : Nat → F),
        x1.isCell = true ∨ x2.isCell = true →
        satisfies w ((equal_cells st x1 x2 sp).2).gates →
        evalVar w (equal_cells st x1 x2 sp).1
          = [if evalCvar w x1 = evalCvar w x2 then 1 else 0])
    ∧ (∀ {F : Type} [Field F] [DecidableEq F] (st : CircuitWriter F) (c1 c2 : F) (sp : Nat),
        equal_cells st (ConstOrCell.Const c1) (ConstOrCell.Const c2) sp
          = (Var.new_constant (if c1 = c2 then 1 else 0) sp, st)) :=
  ⟨fun st x1 x2 sp w _ h => equal_cells_eval st x1 x2 sp w h,
   fun _ _ _ _ => rfl⟩

/-- Witness for C1: the gadget on cells 0 and 1, both valued 3 in GF(7),
resolves to 1. -/
theorem equal_cells_correct_witness :
    evalVar wC1 (equal_cells (⟨2, []⟩ : CircuitWriter (ZMod 7))
        (ConstOrCell.Cell 0) (ConstOrCell.Cell 1) 0).1
      = [if evalCvar wC1 (ConstOrCell.Cell 0) = evalCvar wC1 (ConstOrCell.Cell 1)
         then 1 else 0] :=
  equal_cells_correct.1 ⟨2, []⟩ (ConstOrCell.Cell 0) (ConstOrCell.Cell 1) 0 wC1
    (Or.inl (by decide)) (by decide)

/-- C2: `not_equal` is not the logical complement of `equal` for every pair
of equal-length compound values.  Over GF(7) with witnessed vectors (3, 5)
and (3, 6) — which differ in their second element, so the claim requires
result 1 — the emitted circuit is satisfied by the exhibited witness and
the result scalar evaluates to 0: the code ANDs the per-element not-equal
bits, so the equal first pair zeroes the accumulator. -/
theorem not_equal_partial_diff_returns_zero :
    (not_equal (⟨4, []⟩ : CircuitWriter (ZMod 7)) c2Lhs c2Rhs 0).isSome = true
    ∧ satisfies wNE c2Out.2.gates
    ∧ c2Lhs.cvars.map (evalCvar wNE) ≠ c2Rhs.cvars.map (evalCvar wNE)
    ∧ evalVar wNE c2Out.1 = [0] := by decide

/-- C3: compound `equal` evaluates to 1 on `equal(v, v)` under any witness
satisfying its constraints, and to 0 whenever the two operands differ in at
least one element under the witness. -/
theorem equal_refl_and_diff :
    (∀ {F : Type} [Field F] [DecidableEq F] (st : CircuitWriter F) (v : Var F) (sp : Nat)
        (out : Var F × CircuitWriter F), equal st v v sp = some out →
        ∀ w : Nat → F, satisfies w out.2.gates → evalVar w out.1 = [1])
    ∧ (∀ {F : Type} [Field F] [DecidableEq F] (st : CircuitWriter F) (v u : Var F) (sp : Nat)
        (out : Var F × CircuitWriter F), equal st v u sp = some out →
        ∀ w : Nat → F, satisfies w out.2.gates →
          v.cvars.map (evalCvar w) ≠ u.cvars.map (evalCvar w) →
          evalVar w out.1 = [0]) := by
  constructor
  · intro F _ _ st v sp out hout w hw
    rw [equal_sound st v v sp out hout w hw]
    simp
  · intro F _ _ st v u sp out hout w hw hne
    rw [equal_sound st v u sp out hout w hw]
    simp [hne]

/-- Witness for C3: cell 0 valued 4 gives `equal v v = 1`, and against the
constant 5 gives 0. -/
theorem equal_refl_and_diff_witness :
    evalVar wC3a c3ReflOut.1 = [1] ∧ evalVar wC3b c3DiffOut.1 = [0] :=
  ⟨equal_refl_and_diff.1 ⟨1, []⟩ ⟨[ConstOrCell.Cell 0], 0⟩ 0 c3ReflOut (by decide)
     wC3a (by decide),
   equal_refl_and_diff.2 ⟨1, []⟩ ⟨[ConstOrCell.Cell 0], 0⟩ ⟨[ConstOrCell.Const 5], 0⟩ 0
     c3DiffOut (by decide) wC3b (by decide) (by decide)⟩

/-- C4: adding or multiplying two Constants folds at compile time into the
Constant sum or product, with zero backend allocations (the circuit state
is returned unchanged). -/
theorem add_mul_const_fold {F : Type} [Field F] [DecidableEq F]
    (st : CircuitWriter F) (a b : F) (sp : Nat) :
    add st (ConstOrCell.Const a) (ConstOrCell.Const b) sp
      = (Var.new_constant (a + b) sp, st)
    ∧ mul st (ConstOrCell.Const a) (ConstOrCell.Const b) sp
      = (Var.new_constant (a * b) sp, st) :=
  ⟨rfl, rfl⟩

/-- C5: adding the zero Constant to a Cell (in either argument order)
returns a value backed by the same cell with no new cell allocated, and
multiplying a Cell by the zero Constant (in either order) returns the zero
Constant with no new cell allocated. -/
theorem add_zero_mul_zero_fast_path {F : Type} [Field F] [DecidableEq F]
    (st : CircuitWriter F) (i : Nat) (sp : Nat) :
    add st (ConstOrCell.Cell i) (ConstOrCell.Const 0) sp = (Var.new_var i sp, st)
    ∧ add st (ConstOrCell.Const 0) (ConstOrCell.Cell i) sp = (Var.new_var i sp, st)
    ∧ mul st (ConstOrCell.Cell i) (ConstOrCell.Const 0) sp = (Var.new_constant 0 sp, st)
    ∧ mul st (ConstOrCell.Const 0) (ConstOrCell.Cell i) sp = (Var.new_constant 0 sp, st) := by
  refine ⟨?_, ?_, ?_, ?_⟩ <;> simp [add, mul]

/-- C6: a Constant condition short-circuits `if_else` with zero gates
emitted: condition 1 returns the `then` scalars unchanged and condition 0
returns the `else` scalars unchanged, element-wise in order, with the
circuit state untouched. -/
theorem if_else_const_cond {F : Type} [Field F] [DecidableEq F]
    (st : CircuitWriter F) (t e : Var F) (sp cs : Nat)
    (hlen : t.cvars.length = e.cvars.length) :
    if_else st ⟨[ConstOrCell.Const 1], cs⟩ t e sp = some (⟨t.cvars, sp⟩, st)
    ∧ if_else st ⟨[ConstOrCell.Const 0], cs⟩ t e sp = some (⟨e.cvars, sp⟩, st) := by
  constructor
  · have h1 : ((⟨[ConstOrCell.Const 1], cs⟩ : Var F)).cvars.length = 1 := rfl
    rw [if_else, if_pos h1, if_pos hlen]
    simp only [Var.get0, List.headD_cons]
    rw [if_else_loop_one]
    simp [Var.new, List.map_fst_zip t.cvars e.cvars (le_of_eq hlen)]
  · have h1 : ((⟨[ConstOrCell.Const 0], cs⟩ : Var F)).cvars.length = 1 := rfl
    rw [if_else, if_pos h1, if_pos hlen]
    simp only [Var.get0, List.headD_cons]
    rw [if_else_loop_not_one (0 : F) zero_ne_one]
    simp [Var.new, List.map_snd_zip t.cvars e.cvars (le_of_eq hlen.symm)]

/-- Witness for C6 on concrete length-2 branches over GF(7). -/
theorem if_else_const_cond_witness :
    if_else (⟨5, []⟩ : CircuitWriter (ZMod 7)) ⟨[ConstOrCell.Const 1], 7⟩
        ⟨[ConstOrCell.Cell 0, ConstOrCell.Const 4], 1⟩
        ⟨[ConstOrCell.Const 2, ConstOrCell.Cell 1], 2⟩ 3
      = some (⟨[ConstOrCell.Cell 0, ConstOrCell.Const 4], 3⟩, ⟨5, []⟩)
    ∧ if_else (⟨5, []⟩ : CircuitWriter (ZMod 7)) ⟨[ConstOrCell.Const 0], 7⟩
        ⟨[ConstOrCell.Cell 0, ConstOrCell.Const 4], 1⟩
        ⟨[ConstOrCell.Const 2, ConstOrCell.Cell 1], 2⟩ 3
      = some (⟨[ConstOrCell.Const 2, ConstOrCell.Cell 1], 3⟩, ⟨5, []⟩) :=
  if_else_const_cond ⟨5, []⟩ ⟨[ConstOrCell.Cell 0, ConstOrCell.Const 4], 1⟩
    ⟨[ConstOrCell.Const 2, ConstOrCell.Cell 1], 2⟩ 3 7 (by decide)

/-- C7: with a Cell condition, `if_else_inner` computes `cond·then` via
`mul`, `1 − cond` via `sub`, `(1 − cond)·else` via `mul` and their sum via
`add`, so under any satisfying witness in which the condition resolves to 1
the result evaluates to the `then` value, and when it resolves to 0 to the
`else` value. -/
theorem if_else_inner_cell_select {F : Type} [Field F] [DecidableEq F]
    (st : CircuitWriter F) (i : Nat) (t e : ConstOrCell F) (sp : Nat) (w : Nat → F)
    (h : satisfies w ((if_else_inner st (ConstOrCell.Cell i) t e sp).2).gates) :
    (w i = 1 →
      evalVar w (if_else_inner st (ConstOrCell.Cell i) t e sp).1 = [evalCvar w t])
    ∧ (w i = 0 →
      evalVar w (if_else_inner st (ConstOrCell.Cell i) t e sp).1 = [evalCvar w e]) := by
  have hval := if_else_inner_cell_eval st i t e sp w h
  constructor
  · intro h1
    rw [hval, h1]
    simp
  · intro h0
    rw [hval, h0]
    simp

/-- Witness for C7: condition cell valued 1 selects the `then` cell's value. -/
theorem if_else_inner_cell_select_witness :
    ((wC7 0 = 1 →
        evalVar wC7 (if_else_inner (⟨3, []⟩ : CircuitWriter (ZMod 7))
          (ConstOrCell.Cell 0) (ConstOrCell.Cell 1) (ConstOrCell.Cell 2) 0).1
          = [evalCvar wC7 (ConstOrCell.Cell 1)])
      ∧ (wC7 0 = 0 →
        evalVar wC7 (if_else_inner (⟨3, []⟩ : CircuitWriter (ZMod 7))
          (ConstOrCell.Cell 0) (ConstOrCell.Cell 1) (ConstOrCell.Cell 2) 0).1
          = [evalCvar wC7 (ConstOrCell.Cell 2)])) :=
  if_else_inner_cell_select ⟨3, []⟩ 0 (ConstOrCell.Cell 1) (ConstOrCell.Cell 2) 0 wC7
    (by decide)

/-- C8: mismatched operand lengths make `equal` and `not_equal` abort — the
Rust assertion failure, modelled as `none`, with no emitted gate observable
and no truncated or padded comparison — and `if_else` aborts when the
branch lengths differ or the condition is not a single scalar. -/
theorem length_mismatch_aborts :
    (∀ {F : Type} [Field F] [DecidableEq F] (st : CircuitWriter F) (l r : Var F) (sp : Nat),
        l.cvars.length ≠ r.cvars.length →
        equal st l r sp = none ∧ not_equal st l r sp = none)
    ∧ (∀ {F : Type} [Field F] [DecidableEq F] (st : CircuitWriter F) (c t e : Var F)
        (sp : Nat),
        t.cvars.length ≠ e.cvars.length ∨ c.cvars.length ≠ 1 →
        if_else st c t e sp = none) := by
  constructor
  · intro F _ _ st l r sp h
    exact ⟨by simp [equal, h], by simp [not_equal, h]⟩
  · intro F _ _ st c t e sp h
    rcases h with h | h
    · by_cases hc : c.cvars.length = 1
      · simp [if_else, hc, h]
      · simp [if_else, hc]
    · simp [if_else, h]

/-- Witness for C8 on concrete mismatched inputs. -/
theorem length_mismatch_aborts_witness :
    (equal (⟨0, []⟩ : CircuitWriter (ZMod 7)) ⟨[ConstOrCell.Cell 0], 0⟩ ⟨[], 0⟩ 0 = none
      ∧ not_equal (⟨0, []⟩ : CircuitWriter (ZMod 7)) ⟨[ConstOrCell.Cell 0], 0⟩ ⟨[], 0⟩ 0
        = none)
    ∧ if_else (⟨0, []⟩ : CircuitWriter (ZMod 7)) ⟨[ConstOrCell.Cell 0], 0⟩
        ⟨[ConstOrCell.Cell 1], 0⟩ ⟨[], 0⟩ 0 = none :=
  ⟨length_mismatch_aborts.1 ⟨0, []⟩ ⟨[ConstOrCell.Cell 0], 0⟩ ⟨[], 0⟩ 0 (by decide),
   length_mismatch_aborts.2 ⟨0, []⟩ ⟨[ConstOrCell.Cell 0], 0⟩ ⟨[ConstOrCell.Cell 1], 0⟩
     ⟨[], 0⟩ 0 (Or.inl (by decide))⟩

/-- C9 counterexample: with length 2 and all-Constant operands (1, 2) versus
(1, 3), `equal` returns a bare Constant 0 — the AND accumulation
constant-folds, so the result is not Cell-backed, refuting the claim that
multi-cell equality always returns a Cell-backed result. -/
theorem equal_allconst_folds_to_constant :
    (equal (⟨0, []⟩ : CircuitWriter (ZMod 7))
        ⟨[ConstOrCell.Const 1, ConstOrCell.Const 2], 0⟩
        ⟨[ConstOrCell.Const 1, ConstOrCell.Const 3], 0⟩ 0).isSome = true
    ∧ c9Out.1.cvars.any ConstOrCell.isCell = false
    ∧ c9Out.1.cvars = [ConstOrCell.Const 0] := by decide

/-- C9 amended: for equal lengths n > 1, `equal` always allocates the fresh
accumulator cell via `add_constant` (the cell-fixing constraint is among
the emitted gates) even when every element is a Constant; and when every
element is a Constant with all aligned pairs equal, the result is
Cell-backed.  When some aligned Constant pair differs, the AND accumulation
may constant-fold the result to a bare Constant, as the counterexample
shows. -/
theorem equal_multi_accumulator_amended :
    (∀ {F : Type} [Field F] [DecidableEq F] (st : CircuitWriter F) (lhs rhs : Var F)
        (sp : Nat) (out : Var F × CircuitWriter F),
        1 < lhs.cvars.length → lhs.cvars.length = rhs.cvars.length →
        equal st lhs rhs sp = some out →
        Gate.defConstant st.nextVar 1 ∈ out.2.gates)
    ∧ (∀ {F : Type} [Field F] [DecidableEq F] (st : CircuitWriter F) (cs : List F)
        (sp sp1 sp2 : Nat) (out : Var F × CircuitWriter F),
        1 < cs.length →
        equal st ⟨cs.map ConstOrCell.Const, sp1⟩ ⟨cs.map ConstOrCell.Const, sp2⟩ sp
          = some out →
        ∃ i, out.1.cvars = [ConstOrCell.Cell i]) := by
  constructor
  · intro F _ _ st lhs rhs sp out h1 hlen hout
    rw [equal, if_pos hlen, if_neg (by omega : ¬lhs.cvars.length = 1)] at hout
    simp only [Backend.add_constant] at hout
    have hout2 : out = equal_loop
        (⟨st.nextVar + 1, Gate.defConstant st.nextVar 1 :: st.gates⟩ : CircuitWriter F)
        (lhs.cvars.zip rhs.cvars) (Var.new_var st.nextVar sp) sp :=
      (Option.some.inj hout).symm
    subst hout2
    exact mem_gates_of_extends (equal_loop_extends _ _ _ sp) (List.mem_cons_self _ _)
  · intro F _ _ st cs sp sp1 sp2 out h1 hout
    have hlen : ((⟨cs.map ConstOrCell.Const, sp1⟩ : Var F)).cvars.length
        = ((⟨cs.map ConstOrCell.Const, sp2⟩ : Var F)).cvars.length := by simp
    have hne1 : ¬((⟨cs.map ConstOrCell.Const, sp1⟩ : Var F)).cvars.length = 1 := by
      simp only [List.length_map]
      omega
    rw [equal, if_pos hlen, if_neg hne1] at hout
    simp only [Backend.add_constant] at hout
    have hzip : (cs.map ConstOrCell.Const).zip (cs.map ConstOrCell.Const)
        = cs.map (fun c => (ConstOrCell.Const c, ConstOrCell.Const c)) := by
      rw [List.zip_map']
    rw [hzip] at hout
    obtain ⟨i, st2, hloop⟩ := equal_loop_allconst_cell cs
      (⟨st.nextVar + 1, Gate.defConstant st.nextVar 1 :: st.gates⟩ : CircuitWriter F)
      st.nextVar sp
    rw [hloop] at hout
    have hout2 : out = (Var.new_var i sp, st2) := (Option.some.inj hout).symm
    subst hout2
    exact ⟨i, rfl⟩

/-- Witness for the amended C9 on the all-constant equal vectors (2, 5). -/
theorem equal_multi_accumulator_amended_witness :
    Gate.defConstant 0 (1 : ZMod 7) ∈ c9wOut.2.gates
    ∧ ∃ i, c9wOut.1.cvars = [ConstOrCell.Cell i] :=
  ⟨equal_multi_accumulator_amended.1 ⟨0, []⟩ c9wIn c9wIn 0 c9wOut (by decide) (by decide)
     (by decide),
   equal_multi_accumulator_amended.2 ⟨0, []⟩ [2, 5] 0 0 0 c9wOut (by decide) (by decide)⟩

/-- C10: a Constant condition that is not the multiplicative identity —
including non-boolean values such as 2, not only zero — makes
`if_else_inner` deterministically return the `else` scalar unchanged with
no backend interaction, because the constant branch tests only `is_one`. -/
theorem if_else_inner_nonone_const {F : Type} [Field F] [DecidableEq F]
    (st : CircuitWriter F) (c : F) (t e : ConstOrCell F) (sp : Nat) (hc : c ≠ 1) :
    if_else_inner st (ConstOrCell.Const c) t e sp = (Var.new_cvar e sp, st) := by
  simp [if_else_inner, hc]

/-- Witness for C10 at the non-boolean constant condition 2. -/
theorem if_else_inner_nonone_const_witness :
    if_else_inner (⟨0, []⟩ : CircuitWriter (ZMod 7)) (ConstOrCell.Const 2)
        (ConstOrCell.Const 3) (ConstOrCell.Cell 1) 0
      = (Var.new_cvar (ConstOrCell.Cell 1) 0, ⟨0, []⟩) :=
  if_else_inner_nonone_const ⟨0, []⟩ 2 (ConstOrCell.Const 3) (ConstOrCell.Cell 1) 0
    (by decide)

end Claims

end Noname
